import Mathlib

/-!
Verification of the Psychoanalytic Events Aggregator against its design
documents.  The developments below shallowly embed the extraction,
scoring, merging and frontend-filtering code of the repository:

* `calculate_completeness` embeds the completeness scorer
  (`calculate_completeness` in the backend design).
* The `EventParser` methods (`_extract_title`, `_extract_date`,
  `_detect_format`, `_extract_location`, `_extract_description`,
  `_extract_registration`, `parse_event_from_html`) are embedded over a
  `Fragment` record holding the results of the fixed CSS queries the
  code performs on a markup fragment.
* The React `App.filteredEvents` computation and the `useEvents` hook
  are embedded over explicit models of JS values and fetch outcomes.

External library behaviour (the `dateutil` parser) is abstracted as a
`DateParser` record of oracles; concrete instances are supplied for
evaluation on sample inputs.
-/

namespace Agg

set_option maxHeartbeats 1000000

/-! ## Completeness scorer

Embedding of `calculate_completeness(event)` from the backend design.
The field-presence test `has_field(event, field)` is not defined in the
source, so it is abstracted as a Boolean valuation on the weighted
fields. -/

/-- The eight weighted fields, in the weight table's declaration order. -/
inductive ScoredField where
  | title
  | start_date
  | event_type
  | format
  | description
  | location
  | organizer_name
  | registration_url
  deriving DecidableEq, Repr

/-- The fixed weight table, in declaration (insertion) order. -/
def weights : List (ScoredField × Nat) :=
  [(.title, 20), (.start_date, 20), (.event_type, 10), (.format, 10),
   (.description, 10), (.location, 10), (.organizer_name, 10), (.registration_url, 10)]

/-- One iteration of the scoring loop: add the weight when the field is
present, otherwise append the field to `missing_fields`. -/
def completenessStep (has : ScoredField → Bool)
    (acc : Nat × List ScoredField) (fw : ScoredField × Nat) : Nat × List ScoredField :=
  if has fw.1 then (acc.1 + fw.2, acc.2) else (acc.1, acc.2 ++ [fw.1])

/-- `calculate_completeness`: fold the scoring loop over the weight
table, returning `(score, missing_fields)`. -/
def calculate_completeness (has : ScoredField → Bool) : Nat × List ScoredField :=
  weights.foldl (completenessStep has) (0, [])

/-! ## String utilities

Python substring tests (`kw in text`) and slicing, modelled over the
string's character list so that everything is kernel-evaluable. -/

/-- Does `sub` occur at the head of `s`? -/
def startsWithL (s sub : List Char) : Bool :=
  match s, sub with
  | _, [] => true
  | [], _ :: _ => false
  | c :: cs, d :: ds => c == d && startsWithL cs ds

/-- Does `sub` occur anywhere in `s`? -/
def hasSubAux (s sub : List Char) : Bool :=
  match s with
  | [] => sub.isEmpty
  | _ :: cs => startsWithL s sub || hasSubAux cs sub

/-- Python's `sub in s` substring containment test. -/
def hasSub (s sub : String) : Bool :=
  hasSubAux s.toList sub.toList

/-- Python's slice `s[:n]`, by code points. -/
def takeChars (s : String) (n : Nat) : String :=
  String.mk (s.toList.take n)

/-- Python's `s.lower()` (ASCII case folding, as used by the parser). -/
def toLowerS (s : String) : String :=
  String.mk (s.toList.map Char.toLower)

/-- Python's `s.strip()`: drop leading and trailing whitespace. -/
def trimS (s : String) : String :=
  String.mk (((s.toList.dropWhile Char.isWhitespace).reverse.dropWhile
    Char.isWhitespace).reverse)

/-- One splitting pass of Python's `s.split(sep)` for a one-character
separator, over the character list. -/
def splitOnCharL (sep : Char) (l : List Char) : List (List Char) :=
  match l with
  | [] => [[]]
  | c :: cs =>
      let r := splitOnCharL sep cs
      if c == sep then [] :: r
      else
        match r with
        | [] => [[c]]
        | h :: t => (c :: h) :: t

/-- Python's `s.split(',')`. -/
def splitComma (s : String) : List String :=
  (splitOnCharL ',' s.toList).map String.mk

/-! ## Fragment model

`EventParser` receives a BeautifulSoup element.  The parser only ever
queries it through a fixed set of CSS `select_one` calls, its flattened
text (`get_text`), and attributes of the selected elements; a
`Fragment` records the results of exactly those queries.
`get_text(strip=True)` is modelled as `trimS` of the flattened
text. -/

/-- A selected sub-element, reduced to its flattened text. -/
structure Elem where
  text : String
  deriving DecidableEq, Repr

/-- The result of `select_one('.date, .event-date, time[datetime]')`:
its (optional) machine-readable `datetime` attribute and its text. -/
structure DateElem where
  datetimeAttr : Option String
  text : String
  deriving DecidableEq, Repr

/-- A markup fragment, as seen through the queries the parser makes. -/
structure Fragment where
  /-- `element.get_text()` -/
  text : String := ""
  /-- `select_one('h1')` -/
  h1 : Option Elem := none
  /-- `select_one('h2')` -/
  h2 : Option Elem := none
  /-- `select_one('h3')` -/
  h3 : Option Elem := none
  /-- `select_one('.event-title')` -/
  eventTitleEl : Option Elem := none
  /-- `select_one('.title')` -/
  titleEl : Option Elem := none
  /-- `select_one('a')` -/
  linkEl : Option Elem := none
  /-- `select_one('.date, .event-date, time[datetime]')` -/
  dateEl : Option DateElem := none
  /-- `select_one('.location, .venue, .address')` -/
  locationEl : Option Elem := none
  /-- href of `select_one('a[href*="zoom"], a[href*="meet"]')` -/
  zoomLink : Option String := none
  /-- href of `select_one('a[href*="register"], a[href*="registration"]')` -/
  regLink : Option String := none
  /-- `select_one('.description')` -/
  descriptionEl : Option Elem := none
  /-- `select_one('.event-description')` -/
  eventDescriptionEl : Option Elem := none
  /-- `select_one('p')` -/
  pEl : Option Elem := none
  /-- `select_one('.content')` -/
  contentEl : Option Elem := none
  deriving DecidableEq, Repr

/-! ## Format detection (`EventParser._detect_format`) -/

/-- `FORMAT_KEYWORDS['online']`. -/
def onlineKeywords : List String :=
  ["online", "virtual", "webinar", "zoom", "via zoom", "remote"]

/-- `FORMAT_KEYWORDS['in-person']`. -/
def inPersonKeywords : List String :=
  ["in-person", "in person", "venue", "location:", "address:"]

/-- `FORMAT_KEYWORDS['hybrid']`. -/
def hybridKeywords : List String :=
  ["hybrid", "both online and in-person"]

/-- Does any keyword of `kws` occur in the lowercased fragment text? -/
def keywordMatch (kws : List String) (frag : Fragment) : Bool :=
  kws.any fun kw => hasSub (toLowerS frag.text) kw

/-- `_detect_format`: lowercase the text, check hybrid, then online,
then in-person keywords; otherwise default on the location element. -/
def detect_format (frag : Fragment) : String :=
  if keywordMatch hybridKeywords frag then "hybrid"
  else if keywordMatch onlineKeywords frag then "online"
  else if keywordMatch inPersonKeywords frag then "in-person"
  else if frag.locationEl.isSome then "in-person"
  else "online"

/-! ## Title extraction (`EventParser._extract_title`) -/

/-- The title selectors `['h1', 'h2', 'h3', '.event-title', '.title', 'a']`
in source order, as queried on the fragment. -/
def titleSelectors (frag : Fragment) : List (Option Elem) :=
  [frag.h1, frag.h2, frag.h3, frag.eventTitleEl, frag.titleEl, frag.linkEl]

/-- The selector loop: return the first selected element whose stripped
text is non-empty (`if title_elem and title_elem.text.strip()`). -/
def titleFromElems (l : List (Option Elem)) : Option String :=
  match l with
  | [] => none
  | none :: rest => titleFromElems rest
  | some el :: rest =>
      if trimS el.text ≠ "" then some (trimS el.text) else titleFromElems rest

/-- `_extract_title`: the selector loop, then the fallback
`element.get_text(strip=True)[:200]`. -/
def extract_title (frag : Fragment) : String :=
  match titleFromElems (titleSelectors frag) with
  | some t => t
  | none => takeChars (trimS frag.text) 200

/-! ## Date patterns (`EventParser.DATE_PATTERNS`)

Each regex of the source's ordered pattern list is embedded as a
matcher that attempts the pattern at the head of a character list and
returns the matched characters; `searchPat` scans positions left to
right, as `re.search` does, and greedy `{1,2}` quantifiers are
implemented by trying the longer length first. -/

/-- Exactly `n` digits: returns the digits and the rest of the input. -/
def exactDigits : Nat → List Char → Option (List Char × List Char)
  | 0, l => some ([], l)
  | _ + 1, [] => none
  | n + 1, c :: cs =>
      if c.isDigit then (exactDigits n cs).map fun p => (c :: p.1, p.2) else none

/-- One alternative of `\d{n1}/\d{n2}/\d{4}`. -/
def slashAttempt (n1 n2 : Nat) (l : List Char) : Option (List Char) :=
  match exactDigits n1 l with
  | some (d1, '/' :: r1) =>
      match exactDigits n2 r1 with
      | some (d2, '/' :: r2) =>
          match exactDigits 4 r2 with
          | some (d3, _) => some (d1 ++ '/' :: d2 ++ '/' :: d3)
          | none => none
      | _ => none
  | _ => none

/-- Pattern 1, `\d{1,2}/\d{1,2}/\d{4}`, attempted at one position. -/
def matchSlashAt (l : List Char) : Option (List Char) :=
  slashAttempt 2 2 l <|> slashAttempt 2 1 l <|> slashAttempt 1 2 l <|> slashAttempt 1 1 l

/-- Pattern 2, `\d{4}-\d{2}-\d{2}`, attempted at one position. -/
def matchIsoAt (l : List Char) : Option (List Char) :=
  match exactDigits 4 l with
  | some (y, '-' :: r1) =>
      match exactDigits 2 r1 with
      | some (m, '-' :: r2) =>
          match exactDigits 2 r2 with
          | some (d, _) => some (y ++ '-' :: m ++ '-' :: d)
          | none => none
      | _ => none
  | _ => none

/-- `[A-Z][a-z]+`: a capitalised word, returned with the rest. -/
def matchMonthWord (l : List Char) : Option (List Char × List Char) :=
  match l with
  | [] => none
  | c :: cs =>
      if c.isUpper then
        let low := cs.takeWhile fun d => d.isLower
        if low.isEmpty then none else some (c :: low, cs.drop low.length)
      else none

/-- One alternative of `[A-Z][a-z]+ \d{nd},? \d{4}`. -/
def mdyAttempt (nd : Nat) (l : List Char) : Option (List Char) :=
  match matchMonthWord l with
  | some (w, ' ' :: r1) =>
      match exactDigits nd r1 with
      | some (d, r2) =>
          (match r2 with
           | ',' :: ' ' :: r3 =>
               (exactDigits 4 r3).map fun p => w ++ ' ' :: d ++ ',' :: ' ' :: p.1
           | _ => none)
          <|>
          (match r2 with
           | ' ' :: r3 => (exactDigits 4 r3).map fun p => w ++ ' ' :: d ++ ' ' :: p.1
           | _ => none)
      | none => none
  | _ => none

/-- Pattern 3, `[A-Z][a-z]+ \d{1,2},? \d{4}`, attempted at one position. -/
def matchMonthDayAt (l : List Char) : Option (List Char) :=
  mdyAttempt 2 l <|> mdyAttempt 1 l

/-- One alternative of `\d{nd} [A-Z][a-z]+ \d{4}`. -/
def dmyAttempt (nd : Nat) (l : List Char) : Option (List Char) :=
  match exactDigits nd l with
  | some (d, ' ' :: r1) =>
      match matchMonthWord r1 with
      | some (w, ' ' :: r2) => (exactDigits 4 r2).map fun p => d ++ ' ' :: w ++ ' ' :: p.1
      | _ => none
  | _ => none

/-- Pattern 4, `\d{1,2} [A-Z][a-z]+ \d{4}`, attempted at one position. -/
def matchDayMonthAt (l : List Char) : Option (List Char) :=
  dmyAttempt 2 l <|> dmyAttempt 1 l

/-- `re.search`: attempt the matcher at each position, left to right. -/
def searchPat (m : List Char → Option (List Char)) : List Char → Option (List Char)
  | [] => m []
  | c :: cs =>
      match m (c :: cs) with
      | some r => some r
      | none => searchPat m cs

/-- `re.search` over a string, returning `match.group()`. -/
def reSearch (m : List Char → Option (List Char)) (s : String) : Option String :=
  (searchPat m s.toList).map String.mk

/-- `DATE_PATTERNS`, in source order. -/
def datePatterns : List (List Char → Option (List Char)) :=
  [matchSlashAt, matchIsoAt, matchMonthDayAt, matchDayMonthAt]

/-! ## Date extraction (`EventParser._extract_date`)

The external `dateutil` parser is abstracted: `parse` models
`date_parser.parse(s)` (`none` models a raised `ParserError`) and
`parseFuzzy` models `date_parser.parse(s, fuzzy=True)`.  Dates are
represented as `Nat` codes. -/

/-- Oracles for the external `python-dateutil` parser. -/
structure DateParser where
  parse : String → Option Nat
  parseFuzzy : String → Option Nat

/-- The regex fallback loop of `_extract_date`: for each pattern in
order, search the text; on a match, parse it, and on a parse failure
continue with the next pattern. -/
def tryDatePatternsL (P : DateParser) (text : String) :
    List (List Char → Option (List Char)) → Option Nat
  | [] => none
  | m :: rest =>
      match reSearch m text with
      | some mt =>
          match P.parse mt with
          | some d => some d
          | none => tryDatePatternsL P text rest
      | none => tryDatePatternsL P text rest

/-- The regex fallback of `_extract_date` over `DATE_PATTERNS`. -/
def tryDatePatterns (P : DateParser) (text : String) : Option Nat :=
  tryDatePatternsL P text datePatterns

/-- `_extract_date`.  A `.error` result models the one uncaught
exception path: `date_parser.parse(date_elem['datetime'])` raising on a
malformed machine-readable attribute, which propagates to the caller.
All other parse failures are caught inside the method. -/
def extract_date (P : DateParser) (frag : Fragment) : Except Unit (Option Nat) :=
  match frag.dateEl with
  | some de =>
      match de.datetimeAttr with
      | some attr =>
          match P.parse attr with
          | some d => .ok (some d)
          | none => .error ()
      | none =>
          match P.parseFuzzy de.text with
          | some d => .ok (some d)
          | none => .ok (tryDatePatterns P de.text)
  | none =>
      match P.parseFuzzy frag.text with
      | some d => .ok (some d)
      | none => .ok (tryDatePatterns P frag.text)

/-- The frozen claim's reading of `_extract_date`, for comparison: the
stage (d) regex fallback is applied against the WHOLE fragment text
even when a date-labeled sub-element supplied the stage (b) text. -/
def extract_date_claimed (P : DateParser) (frag : Fragment) : Except Unit (Option Nat) :=
  match frag.dateEl with
  | some de =>
      match de.datetimeAttr with
      | some attr =>
          match P.parse attr with
          | some d => .ok (some d)
          | none => .error ()
      | none =>
          match P.parseFuzzy de.text with
          | some d => .ok (some d)
          | none => .ok (tryDatePatterns P frag.text)
  | none =>
      match P.parseFuzzy frag.text with
      | some d => .ok (some d)
      | none => .ok (tryDatePatterns P frag.text)

/-- Digit characters to a number. -/
def digitsVal (l : List Char) : Nat :=
  l.foldl (fun a c => a * 10 + (c.toNat - 48)) 0

/-- Modelled from the spec: a sample instance of the external
`dateutil` oracle (the library itself is not part of the repository).
`parse` accepts exactly ISO `YYYY-MM-DD` strings, encoding the date as
the number `YYYYMMDD`; `parseFuzzy` additionally accepts any text
containing an ISO date substring, as the lenient parser would. -/
def isoParse (s : String) : Option Nat :=
  match matchIsoAt s.toList with
  | some m =>
      if m.length = s.toList.length then some (digitsVal (m.filter fun c => c.isDigit))
      else none
  | none => none

/-- Modelled from the spec: the fuzzy variant of `isoParse`. -/
def isoFuzzy (s : String) : Option Nat :=
  match searchPat matchIsoAt s.toList with
  | some m => some (digitsVal (m.filter fun c => c.isDigit))
  | none => none

/-- The sample `dateutil` oracle. -/
def isoParser : DateParser :=
  ⟨isoParse, isoFuzzy⟩

/-! ## Description extraction (`EventParser._extract_description`) -/

/-- The description selector loop: the first present element whose
stripped text is longer than 50 characters. -/
def descFromElems (l : List (Option Elem)) : Option String :=
  match l with
  | [] => none
  | none :: rest => descFromElems rest
  | some el :: rest =>
      if (trimS el.text).length > 50 then some (trimS el.text) else descFromElems rest

/-- `_extract_description` over the selectors
`['.description', '.event-description', 'p', '.content']`. -/
def extract_description (frag : Fragment) : String :=
  match descFromElems [frag.descriptionEl, frag.eventDescriptionEl, frag.pEl, frag.contentEl] with
  | some t => t
  | none => ""

/-! ## Location extraction (`EventParser._extract_location`) -/

/-- The location dictionary built by `_extract_location`. -/
structure LocationRec where
  venue : Option String := none
  city : Option String := none
  country : Option String := none
  online_url : Option String := none
  deriving DecidableEq, Repr

/-- `[p.strip() for p in text.split(',')]` on the location element's
stripped text. -/
def locationParts (el : Elem) : List String :=
  (splitComma (trimS el.text)).map trimS

/-- `_extract_location`: venue from the location element's stripped
text; city/country from the first/last comma-separated parts when at
least two exist; the online URL from a zoom/meet link independently. -/
def extract_location (frag : Fragment) : LocationRec :=
  let loc : LocationRec :=
    match frag.locationEl with
    | some el =>
        match locationParts el with
        | p0 :: p1 :: rest =>
            { venue := some (trimS el.text), city := some p0,
              country := some ((p0 :: p1 :: rest).getLastD "") }
        | _ => { venue := some (trimS el.text) }
    | none => {}
  match frag.zoomLink with
  | some href => { loc with online_url := some href }
  | none => loc

/-! ## Registration extraction (`EventParser._extract_registration`) -/

/-- Take at least one digit (`\d+`), returning digits and rest. -/
def takeDigits1 (l : List Char) : Option (List Char × List Char) :=
  let d := l.takeWhile fun c => c.isDigit
  if d.isEmpty then none else some (d, l.drop d.length)

/-- Fee pattern `\$\d+(?:\.\d{2})?`, attempted at one position. -/
def matchDollarAt (l : List Char) : Option (List Char) :=
  match l with
  | '$' :: r =>
      match takeDigits1 r with
      | some (d, '.' :: r2) =>
          match exactDigits 2 r2 with
          | some (c2, _) => some ('$' :: d ++ '.' :: c2)
          | none => some ('$' :: d)
      | some (d, _) => some ('$' :: d)
      | none => none
  | _ => none

/-- Fee patterns `€\d+` and `£\d+`, attempted at one position. -/
def matchCurrencyAt (sym : Char) (l : List Char) : Option (List Char) :=
  match l with
  | c :: r => if c == sym then (takeDigits1 r).map (fun p => c :: p.1) else none
  | [] => none

/-- A literal word pattern under `re.IGNORECASE`, attempted at one
position; returns the original-case slice as `match.group()` would. -/
def matchLiteralCIAt (lit l : List Char) : Option (List Char) :=
  match lit with
  | [] => some []
  | x :: xs =>
      match l with
      | [] => none
      | c :: cs =>
          if c.toLower == x.toLower then (matchLiteralCIAt xs cs).map (fun m => c :: m)
          else none

/-- The ordered `fee_patterns` list of the source. -/
def feePatterns : List (List Char → Option (List Char)) :=
  [matchDollarAt, matchCurrencyAt '€', matchCurrencyAt '£',
   matchLiteralCIAt "free".toList, matchLiteralCIAt "no charge".toList,
   matchLiteralCIAt "complimentary".toList]

/-- The fee loop: the first pattern with a match anywhere wins. -/
def feeFromPatterns (text : String) : List (List Char → Option (List Char)) → Option String
  | [] => none
  | m :: rest =>
      match reSearch m text with
      | some mt => some mt
      | none => feeFromPatterns text rest

/-- The registration dictionary built by `_extract_registration`. -/
structure RegistrationRec where
  url : Option String := none
  fee : Option String := none
  deriving DecidableEq, Repr

/-- `_extract_registration`: the registration link's href and the first
matching fee pattern. -/
def extract_registration (frag : Fragment) : RegistrationRec :=
  { url := frag.regLink, fee := feeFromPatterns frag.text feePatterns }

/-! ## Event assembly (`EventParser.parse_event_from_html`) -/

/-- Source provenance handed to the assembler. -/
structure SourceContext where
  url : String := ""
  name : String := ""
  deriving DecidableEq, Repr

/-- The assembled candidate event record. -/
structure CandidateEvent where
  title : String
  description : String
  start_date : Option Nat
  format : String
  location : LocationRec
  registration : RegistrationRec
  source : SourceContext
  deriving DecidableEq, Repr

/-- Modelled from the spec: the pydantic `Event` model's validation is
declared but not implemented in the source; per the spec the assembler
"fails ... only when title extraction produces an empty string AND date
extraction finds nothing". -/
def eventValidate (e : CandidateEvent) : Option CandidateEvent :=
  if e.title = "" ∧ e.start_date = none then none else some e

/-- `parse_event_from_html`: run all extractors, validate, and catch
any raised exception as a `None` (skip) result.  The only extractor
exception is the uncaught stage (a) parse inside `_extract_date`. -/
def parse_event_from_html (P : DateParser) (frag : Fragment) (ctx : SourceContext) :
    Option CandidateEvent :=
  match extract_date P frag with
  | .error _ => none
  | .ok d =>
      eventValidate
        { title := extract_title frag
          description := extract_description frag
          start_date := d
          format := detect_format frag
          location := extract_location frag
          registration := extract_registration frag
          source := ctx }

/-! ## Sample fragments for concrete evaluation -/

/-- A fragment whose text contains both a hybrid and an online keyword. -/
def fragHybridZoom : Fragment :=
  { text := "Hybrid seminar via Zoom" }

/-- A fragment with no selectable title elements, only flat text. -/
def fragNoTitle : Fragment :=
  { text := "   A fragment with plain text only   " }

/-- A fragment whose date-labeled sub-element has unhelpful text while
the whole fragment text contains an ISO date. -/
def fragDateNarrow : Fragment :=
  { text := "Meeting on 2024-03-10 at the institute, details soon"
    dateEl := some { datetimeAttr := none, text := "soon" } }

/-- A fragment with a machine-readable date attribute and fuzzy free
text, the spec's stage-priority example. -/
def fragAttrPriority : Fragment :=
  { text := "sometime in spring"
    dateEl := some { datetimeAttr := some "2024-01-15", text := "sometime in spring" } }

/-- A fragment with a good title but a malformed machine-readable date
attribute. -/
def fragBadAttr : Fragment :=
  { text := "Clinical Seminar whenever"
    h2 := some { text := "Clinical Seminar" }
    dateEl := some { datetimeAttr := some "garbage", text := "whenever" } }

/-- A fragment whose text states a format keyword explicitly. -/
def fragExplicitInPerson : Fragment :=
  { text := "Venue: Institute Hall" }

/-- A fragment with no format keyword but a location element, hitting
the default branch of `_detect_format`. -/
def fragDefaultInPerson : Fragment :=
  { text := "A talk on dreams"
    locationEl := some { text := "Institute Hall, London, UK" } }

/-- A fragment with a comma-separated location and a zoom link. -/
def fragLocation : Fragment :=
  { text := "Seminar"
    locationEl := some { text := "Institute Hall, London, UK" }
    zoomLink := some "https://zoom.us/j/123" }

/-! ## Merging (`EventMerger.merge_duplicates`)

The merger's methods are declared but left unimplemented (`pass`) in
the source, so the merge rule is modelled from the spec. -/

/-- An event as the merger sees it: a value per weighted field (`none`
when the scorer marked the field missing) and a scrape timestamp. -/
structure MEvent where
  fields : ScoredField → Option String
  scrapedAt : Nat

/-- Modelled from the spec: `EventMerger.merge_duplicates` has no body
in the source; per the design, each field independently prefers a
member's present value, preferring the more recently scraped member
when both have it present, and never averages or concatenates. -/
def merge_duplicates (e1 e2 : MEvent) : MEvent :=
  { fields := fun f =>
      match e1.fields f, e2.fields f with
      | some v1, some v2 => if e1.scrapedAt < e2.scrapedAt then some v2 else some v1
      | some v1, none => some v1
      | none, some v2 => some v2
      | none, none => none
    scrapedAt := max e1.scrapedAt e2.scrapedAt }

/-- The presence valuation the CompletenessScorer assigns to an
`MEvent` field. -/
def hasField (e : MEvent) (f : ScoredField) : Bool :=
  (e.fields f).isSome

/-- The completeness score of an `MEvent`. -/
def eventScore (e : MEvent) : Nat :=
  (calculate_completeness (hasField e)).1

/-- Modelled from the spec: the normalized title used by the
fingerprint — case-folded and punctuation-stripped. -/
def normTitle (s : String) : String :=
  String.mk ((toLowerS s).toList.filter fun c => c.isAlphanum || c == ' ')

/-- Modelled from the spec: the catalog fingerprint, normalized title
plus day-truncated date. -/
def fingerprint (e : MEvent) : String × Option String :=
  (normTitle ((e.fields .title).getD ""), e.fields .start_date)

/-- A sample member with score 40: title and start date only. -/
def eventA40 : MEvent :=
  { fields := fun f =>
      match f with
      | .title => some "annual conference 2025"
      | .start_date => some "2025-06-01"
      | _ => none
    scrapedAt := 1 }

/-- A sample member with score 80 and the same fingerprint. -/
def eventB80 : MEvent :=
  { fields := fun f =>
      match f with
      | .title => some "Annual Conference 2025"
      | .start_date => some "2025-06-01"
      | .event_type => some "conference"
      | .format => some "online"
      | .description => some "A one-day clinical conference"
      | .location => some "London"
      | _ => none
    scrapedAt := 2 }

/-! ## Frontend filtering (`App.filteredEvents`)

Embedding of the filter/sort chain of the React `App` component (the
two App variants in the repository share this computation verbatim).
JS date parsing (`new Date`) is abstracted as an oracle
`String → Option Int`, `none` modelling an Invalid Date; comparisons
against an invalid date are false, as NaN comparisons are. -/

/-- An event row as the frontend reads it from `events.json`. -/
structure FEvent where
  title : Option String := none
  description : Option String := none
  organizerName : Option String := none
  format : Option String := none
  event_type : Option String := none
  start_date : Option String := none
  completeness_score : Option Nat := none
  deriving DecidableEq, Repr

/-- The `filters` state object of the App component. -/
structure Filters where
  search : String := ""
  format : List String := []
  eventType : List String := []
  startDate : String := ""
  endDate : String := ""
  organization : String := ""
  deriving DecidableEq, Repr

/-- JS truthiness of a possibly missing string field
(null/undefined/"" are falsy). -/
def truthyOpt (o : Option String) : Bool :=
  match o with
  | none => false
  | some s => !(s == "")

/-- `field?.toLowerCase().includes(needle)` (false when absent). -/
def optIncludes (o : Option String) (needle : String) : Bool :=
  match o with
  | some s => hasSub (toLowerS s) needle
  | none => false

/-- `new Date(a) >= new Date(b)` with NaN comparing false. -/
def jsGe (a b : Option Int) : Bool :=
  match a, b with
  | some x, some y => decide (y ≤ x)
  | _, _ => false

/-- `new Date(a) <= new Date(b)` with NaN comparing false. -/
def jsLe (a b : Option Int) : Bool :=
  match a, b with
  | some x, some y => decide (x ≤ y)
  | _, _ => false

/-- Lift the date oracle over an optional field. -/
def jsDateOpt (jsDate : String → Option Int) (o : Option String) : Option Int :=
  match o with
  | some s => jsDate s
  | none => none

/-- The text-search filter step. -/
def applySearch (filters : Filters) (l : List FEvent) : List FEvent :=
  if filters.search ≠ "" then
    l.filter fun e =>
      optIncludes e.title (toLowerS filters.search)
      || optIncludes e.description (toLowerS filters.search)
      || optIncludes e.organizerName (toLowerS filters.search)
  else l

/-- The format filter step. -/
def applyFormat (filters : Filters) (l : List FEvent) : List FEvent :=
  if filters.format.length > 0 then
    l.filter fun e =>
      match e.format with
      | some f => filters.format.contains f
      | none => false
  else l

/-- The event-type filter step. -/
def applyEventType (filters : Filters) (l : List FEvent) : List FEvent :=
  if filters.eventType.length > 0 then
    l.filter fun e =>
      match e.event_type with
      | some t => filters.eventType.contains t
      | none => false
  else l

/-- The organization filter step (`e.organizer?.name === filters.organization`). -/
def applyOrganization (filters : Filters) (l : List FEvent) : List FEvent :=
  if filters.organization ≠ "" then
    l.filter fun e => e.organizerName == some filters.organization
  else l

/-- The start-date filter step:
`e.start_date && new Date(e.start_date) >= start`. -/
def applyStartDate (jsDate : String → Option Int) (filters : Filters)
    (l : List FEvent) : List FEvent :=
  if filters.startDate ≠ "" then
    l.filter fun e =>
      truthyOpt e.start_date
        && jsGe (jsDateOpt jsDate e.start_date) (jsDate filters.startDate)
  else l

/-- The end-date filter step:
`e.start_date && new Date(e.start_date) <= end`. -/
def applyEndDate (jsDate : String → Option Int) (filters : Filters)
    (l : List FEvent) : List FEvent :=
  if filters.endDate ≠ "" then
    l.filter fun e =>
      truthyOpt e.start_date
        && jsLe (jsDateOpt jsDate e.start_date) (jsDate filters.endDate)
  else l

/-- `new Date(9999, 11, 31)`, the sort key for events without a date
(an Invalid Date's NaN key, whose sort behaviour JS leaves
unspecified, is mapped to the same sentinel). -/
def FARDATE : Int := 253370764800000

/-- The 'date' sort key of the comparator. -/
def sortKeyDate (jsDate : String → Option Int) (e : FEvent) : Int :=
  match e.start_date with
  | some s => if s ≠ "" then (jsDate s).getD FARDATE else FARDATE
  | none => FARDATE

/-- The sort comparator as an `a`-before-`b` test (`cmp a b ≤ 0`). -/
def leBy (sortKey : String) (jsDate : String → Option Int) (a b : FEvent) : Bool :=
  match sortKey with
  | "date" => decide (sortKeyDate jsDate a ≤ sortKeyDate jsDate b)
  | "title" => !(decide ((b.title.getD "") < (a.title.getD "")))
  | "completeness" => decide ((b.completeness_score.getD 0) ≤ (a.completeness_score.getD 0))
  | _ => true

/-- Insert into a sorted list (model of the stable JS `Array.sort`). -/
def insertSorted (le : FEvent → FEvent → Bool) (a : FEvent) :
    List FEvent → List FEvent
  | [] => [a]
  | b :: bs => if le a b then a :: b :: bs else b :: insertSorted le a bs

/-- Stable insertion sort (model of `result.sort(comparator)`). -/
def sortList (le : FEvent → FEvent → Bool) : List FEvent → List FEvent
  | [] => []
  | a :: rest => insertSorted le a (sortList le rest)

/-- `App.filteredEvents`: the filter chain in source order, then the
sort. -/
def filteredEvents (jsDate : String → Option Int) (events : List FEvent)
    (filters : Filters) (sortKey : String) : List FEvent :=
  sortList (leBy sortKey jsDate)
    (applyEndDate jsDate filters
      (applyStartDate jsDate filters
        (applyOrganization filters
          (applyEventType filters
            (applyFormat filters
              (applySearch filters events))))))

/-- A sample `new Date` oracle: ISO `YYYY-MM-DD` strings parse to
their `YYYYMMDD` code, anything else is an Invalid Date. -/
def jsDateIso (s : String) : Option Int :=
  (isoParse s).map Int.ofNat

/-- A sample event with a start date. -/
def eventWithDate : FEvent :=
  { title := some "Seminar", start_date := some "2024-05-01" }

/-- A sample event without a start date. -/
def eventNoDate : FEvent :=
  { title := some "Mystery" }

/-- Sample filters with only a start-date bound. -/
def filtersWithStart : Filters :=
  { startDate := "2024-01-01" }

/-! ## Data loading (`useEvents` hook)

Embedding of the fetch effect of `frontend/src/hooks/useEvents.js`
over an explicit model of JS values and of the outcome of one fetch. -/

/-- A JS value as the hook manipulates it. -/
inductive JVal where
  | jundefined
  | jnull
  | jbool (b : Bool)
  | jnum (n : Int)
  | jstr (s : String)
  | jarr (elems : List JVal)
  | jobj (fields : List (String × JVal))

/-- JS truthiness. -/
def truthy : JVal → Bool
  | .jundefined => false
  | .jnull => false
  | .jbool b => b
  | .jnum n => !(n == 0)
  | .jstr s => !(s == "")
  | .jarr _ => true
  | .jobj _ => true

/-- `Array.isArray`. -/
def isArrayJ : JVal → Bool
  | .jarr _ => true
  | _ => false

/-- Object field lookup; missing keys give `undefined`. -/
def lookupField : List (String × JVal) → String → JVal
  | [], _ => .jundefined
  | (k, v) :: rest, key => if k == key then v else lookupField rest key

/-- JS property access `v[key]`: throws a TypeError on null/undefined,
gives `undefined` on other non-objects. -/
def getProp : JVal → String → Except String JVal
  | .jnull, key =>
      .error ("TypeError: Cannot read properties of null (reading '" ++ key ++ "')")
  | .jundefined, key =>
      .error ("TypeError: Cannot read properties of undefined (reading '" ++ key ++ "')")
  | .jobj fields, key => .ok (lookupField fields key)
  | _, _ => .ok .jundefined

/-- JS optional chaining `v?.[key]`: undefined instead of throwing. -/
def optChainProp (v : JVal) (key : String) : JVal :=
  match v with
  | .jnull => .jundefined
  | .jundefined => .jundefined
  | .jobj fields => lookupField fields key
  | _ => .jundefined

/-- The body of one fetch response. -/
inductive BodyResult where
  | jsonError (msg : String)
  | json (v : JVal)

/-- The outcome of one `fetch(dataUrl)` call. -/
inductive FetchOutcome where
  | netError (msg : String)
  | resp (ok : Bool) (status : Nat) (body : BodyResult)

/-- The hook's state after the effect settles. -/
structure HookState where
  events : JVal
  loading : Bool
  error : Option String
  lastUpdated : JVal

/-- The `try` block of `fetchEvents`: produces the events value and
the lastUpdated value, or the caught error message. -/
def runFetch : FetchOutcome → Except String (JVal × JVal)
  | .netError msg => .error msg
  | .resp ok status body =>
      if !ok then .error ("Failed to fetch events: " ++ toString status)
      else
        match body with
        | .jsonError msg => .error msg
        | .json data =>
            if isArrayJ data then .ok (data, .jnull)
            else
              match getProp data "events" with
              | .error msg => .error msg
              | .ok ev =>
                  if truthy ev then
                    match getProp data "metadata" with
                    | .error msg => .error msg
                    | .ok md =>
                        let lu := optChainProp md "last_updated"
                        .ok (ev, if truthy lu then lu else .jnull)
                  else .ok (.jarr [], .jnull)

/-- `useEvents`: the state after the effect, with the `catch` branch
setting the error and emptying events and the `finally` branch ending
loading. -/
def useEvents (o : FetchOutcome) : HookState :=
  match runFetch o with
  | .ok (ev, lu) => { events := ev, loading := false, error := none, lastUpdated := lu }
  | .error msg => { events := .jarr [], loading := false, error := some msg, lastUpdated := .jnull }

/-! ## Theorems -/

lemma completeness_foldl (has : ScoredField → Bool) :
    ∀ (l : List (ScoredField × Nat)) (s : Nat) (m : List ScoredField),
      l.foldl (completenessStep has) (s, m)
        = (s + ((l.filter fun fw => has fw.1).map Prod.snd).sum,
           m ++ (l.filter fun fw => !has fw.1).map Prod.fst) := by
  intro l
  induction l with
  | nil => simp
  | cons hd tl ih =>
      intro s m
      by_cases h : has hd.1 = true
      · simp [completenessStep, h, ih, Nat.add_assoc]
      · simp [completenessStep, h, ih]

lemma sum_filter_weights_le (has : ScoredField → Bool) :
    ∀ l : List (ScoredField × Nat),
      ((l.filter fun fw => has fw.1).map Prod.snd).sum ≤ (l.map Prod.snd).sum := by
  intro l
  induction l with
  | nil => simp
  | cons hd tl ih =>
      by_cases h : has hd.1 = true
      · simp only [List.filter_cons, h, if_true, List.map_cons, List.sum_cons]
        omega
      · simp only [List.filter_cons, h, List.map_cons, List.sum_cons]
        simp only [Bool.false_eq_true, if_false]
        omega

/-- C1: for every presence valuation, the completeness score equals the
sum of the weights of exactly the present fields, the weights sum to
100 so the score lies in `[0,100]`, and `missing_fields` is exactly the
weight-table fields that are not present, in table declaration order. -/
theorem completeness_score_spec (has : ScoredField → Bool) :
    (calculate_completeness has).1
        = ((weights.filter fun fw => has fw.1).map Prod.snd).sum
      ∧ (weights.map Prod.snd).sum = 100
      ∧ (calculate_completeness has).1 ≤ 100
      ∧ (calculate_completeness has).2
        = (weights.filter fun fw => !has fw.1).map Prod.fst := by
  have h := completeness_foldl has weights 0 []
  have hsum : (weights.map Prod.snd).sum = 100 := by decide
  refine ⟨?_, hsum, ?_, ?_⟩
  · rw [calculate_completeness, h]
    simp
  · rw [calculate_completeness, h]
    have h2 := sum_filter_weights_le has weights
    simp only [Nat.zero_add]
    omega
  · rw [calculate_completeness, h]
    simp

lemma titleFromElems_ne_empty :
    ∀ (l : List (Option Elem)) (t : String), titleFromElems l = some t → t ≠ "" := by
  intro l
  induction l with
  | nil => intro t h; simp [titleFromElems] at h
  | cons hd rest ih =>
      intro t h
      match hd with
      | none => exact ih t (by simpa [titleFromElems] using h)
      | some el =>
          by_cases he : trimS el.text = ""
          · simp [titleFromElems, he] at h
            exact ih t h
          · simp [titleFromElems, he] at h
            rw [← h]
            exact he

lemma takeChars_200_eq_empty {s : String} (h : takeChars s 200 = "") : s = "" := by
  have hdata : (takeChars s 200).data = [] := by rw [h]
  have htake : s.toList.take 200 = [] := hdata
  have hnil : s.toList = [] := by
    rcases List.take_eq_nil_iff.mp htake with h1 | h1
    · exact absurd h1 (by decide)
    · exact h1
  exact String.ext hnil

/-- C2: format detection checks hybrid keywords first, then online,
then in-person, first matching category winning; in particular a
fragment containing both a hybrid and an online keyword is classified
"hybrid", never "online". -/
theorem detect_format_keyword_priority (frag : Fragment) :
    (keywordMatch hybridKeywords frag = true → detect_format frag = "hybrid")
    ∧ (keywordMatch hybridKeywords frag = false →
        keywordMatch onlineKeywords frag = true → detect_format frag = "online")
    ∧ (keywordMatch hybridKeywords frag = false →
        keywordMatch onlineKeywords frag = false →
        keywordMatch inPersonKeywords frag = true → detect_format frag = "in-person")
    ∧ (keywordMatch hybridKeywords frag = true →
        keywordMatch onlineKeywords frag = true →
        detect_format frag = "hybrid" ∧ detect_format frag ≠ "online") := by
  refine ⟨?_, ?_, ?_, ?_⟩
  · intro h1; simp [detect_format, h1]
  · intro h1 h2; simp [detect_format, h1, h2]
  · intro h1 h2 h3; simp [detect_format, h1, h2, h3]
  · intro h1 _; simp [detect_format, h1]

/-- Witness for C2 at a concrete fragment containing "Hybrid" and
"Zoom": the result is "hybrid" and not "online". -/
theorem detect_format_keyword_priority_witness :
    detect_format fragHybridZoom = "hybrid" ∧ detect_format fragHybridZoom ≠ "online" :=
  (detect_format_keyword_priority fragHybridZoom).2.2.2 (by decide) (by decide)

/-- C7: title extraction is a total function into strings; when every
structural selector fails it falls back to the first 200 characters of
the whitespace-stripped flattened text, and it returns the empty string
only if the fragment's stripped text is itself empty. -/
theorem extract_title_spec (frag : Fragment) :
    (titleFromElems (titleSelectors frag) = none →
        extract_title frag = takeChars (trimS frag.text) 200)
    ∧ (extract_title frag = "" → trimS frag.text = "") := by
  constructor
  · intro h; simp [extract_title, h]
  · intro h
    unfold extract_title at h
    cases hc : titleFromElems (titleSelectors frag) with
    | some t =>
        rw [hc] at h
        exact absurd h (titleFromElems_ne_empty _ t hc)
    | none =>
        rw [hc] at h
        exact takeChars_200_eq_empty h

/-- Witness for C7 at a concrete fragment with no title elements: the
fallback to the capped stripped text fires. -/
theorem extract_title_spec_witness :
    extract_title fragNoTitle = takeChars (trimS fragNoTitle.text) 200 :=
  (extract_title_spec fragNoTitle).1 (by decide)

/-- C3 counterexample: the claim says the stage (d) regex fallback is
applied against the whole fragment text; on a fragment whose
date-labeled sub-element has unparseable text "soon" while the whole
text contains "2024-03-10", the code finds no date, whereas the
claim's reading resolves 2024-03-10. -/
theorem extract_date_whole_text_counterexample :
    extract_date isoParser fragDateNarrow = .ok none
    ∧ extract_date_claimed isoParser fragDateNarrow = .ok (some 20240310) :=
  ⟨rfl, rfl⟩

/-- C3 amended: date extraction proceeds in stage order with the first
successful stage winning — (a) the machine-readable attribute is
parsed directly and takes priority over everything; (b) else a
date-labeled sub-element's text goes to the fuzzy parser and, on
failure, (d) the regex patterns run against THAT sub-element's text;
(c) only without a date-labeled sub-element do the fuzzy parser and
then the regex patterns run against the whole fragment text. -/
theorem extract_date_stages (P : DateParser) (frag : Fragment) :
    (∀ de attr, frag.dateEl = some de → de.datetimeAttr = some attr →
        extract_date P frag =
          (match P.parse attr with
           | some d => .ok (some d)
           | none => .error ()))
    ∧ (∀ de, frag.dateEl = some de → de.datetimeAttr = none →
        extract_date P frag =
          .ok (match P.parseFuzzy de.text with
               | some d => some d
               | none => tryDatePatterns P de.text))
    ∧ (frag.dateEl = none →
        extract_date P frag =
          .ok (match P.parseFuzzy frag.text with
               | some d => some d
               | none => tryDatePatterns P frag.text)) := by
  refine ⟨?_, ?_, ?_⟩
  · intro de attr hde hattr
    simp [extract_date, hde, hattr]
  · intro de hde hattr
    simp only [extract_date, hde, hattr]
    cases P.parseFuzzy de.text <;> rfl
  · intro hde
    simp only [extract_date, hde]
    cases P.parseFuzzy frag.text <;> rfl

/-- Witness for the amended C3 at the spec's stage-priority example: a
machine-readable attribute "2024-01-15" beats the free text "sometime
in spring". -/
theorem extract_date_stages_witness :
    extract_date isoParser fragAttrPriority = .ok (some 20240115) := by
  have h := (extract_date_stages isoParser fragAttrPriority).1
      { datetimeAttr := some "2024-01-15", text := "sometime in spring" } "2024-01-15" rfl rfl
  rw [h]
  rfl

lemma extract_date_error_iff (P : DateParser) (frag : Fragment) :
    extract_date P frag = .error () ↔
      ∃ de attr, frag.dateEl = some de ∧ de.datetimeAttr = some attr ∧ P.parse attr = none := by
  cases hde : frag.dateEl with
  | none =>
      constructor
      · intro h
        simp only [extract_date, hde] at h
        cases hf : P.parseFuzzy frag.text <;> rw [hf] at h <;> simp at h
      · rintro ⟨de, attr, hd, -, -⟩
        exact absurd hd (by simp)
  | some de =>
      cases hattr : de.datetimeAttr with
      | none =>
          constructor
          · intro h
            simp only [extract_date, hde, hattr] at h
            cases hf : P.parseFuzzy de.text <;> rw [hf] at h <;> simp at h
          · rintro ⟨de2, attr, hd, ha, -⟩
            injection hd with hd2
            subst hd2
            rw [hattr] at ha
            exact absurd ha (by simp)
      | some attr =>
          constructor
          · intro h
            simp only [extract_date, hde, hattr] at h
            cases hp : P.parse attr with
            | some d => rw [hp] at h; simp at h
            | none => exact ⟨de, attr, rfl, hattr, hp⟩
          · rintro ⟨de2, attr2, hd, ha, hp⟩
            injection hd with hd2
            subst hd2
            rw [hattr] at ha
            injection ha with ha2
            subst ha2
            simp only [extract_date, hde, hattr, hp]

/-- C4 counterexample: the claim says a fragment from which a title was
extracted always yields a CandidateEvent; a fragment with the title
"Clinical Seminar" and an unparseable machine-readable date attribute
is nevertheless skipped (the uncaught stage (a) parse exception is
caught by the assembler). -/
theorem parse_event_skip_counterexample :
    extract_title fragBadAttr = "Clinical Seminar"
    ∧ parse_event_from_html isoParser fragBadAttr {} = none :=
  ⟨rfl, rfl⟩

/-- C4 amended: the assembler always returns a result (a skip is the
value `none`, never a thrown error), and it skips exactly when either
the date-labeled sub-element's machine-readable attribute fails to
parse (an extraction anomaly) or the extracted title is empty and date
extraction found nothing.  The `Event` validation step is modelled
from the spec, the pydantic model being absent from the source. -/
theorem parse_event_skip_iff (P : DateParser) (frag : Fragment) (ctx : SourceContext) :
    parse_event_from_html P frag ctx = none ↔
      ((∃ de attr, frag.dateEl = some de ∧ de.datetimeAttr = some attr ∧ P.parse attr = none)
        ∨ (extract_title frag = "" ∧ extract_date P frag = .ok none)) := by
  cases hx : extract_date P frag with
  | error u =>
      cases u
      constructor
      · intro _
        exact Or.inl ((extract_date_error_iff P frag).mp hx)
      · intro _
        simp [parse_event_from_html, hx]
  | ok d =>
      have herr : ¬∃ de attr,
          frag.dateEl = some de ∧ de.datetimeAttr = some attr ∧ P.parse attr = none := by
        intro hc
        have h2 := (extract_date_error_iff P frag).mpr hc
        rw [hx] at h2
        exact Except.noConfusion h2
      constructor
      · intro h
        simp [parse_event_from_html, hx, eventValidate] at h
        refine Or.inr ⟨h.1, ?_⟩
        rw [h.2]
      · intro h
        rcases h with h | ⟨ht, hd⟩
        · exact absurd h herr
        · injection hd with hd2
          simp [parse_event_from_html, hx, eventValidate, ht, hd2]

/-- C6 counterexample: the claim says the defaulted format carries an
explicit "inferred" marker distinct from an explicitly stated format;
the code returns the bare string "in-person" both for a fragment that
states the keyword "venue" and for a keyword-free fragment defaulted
on its location element — the two are indistinguishable. -/
theorem detect_format_flag_counterexample :
    keywordMatch hybridKeywords fragDefaultInPerson = false
    ∧ keywordMatch onlineKeywords fragDefaultInPerson = false
    ∧ keywordMatch inPersonKeywords fragDefaultInPerson = false
    ∧ keywordMatch inPersonKeywords fragExplicitInPerson = true
    ∧ detect_format fragDefaultInPerson = "in-person"
    ∧ detect_format fragExplicitInPerson = "in-person"
    ∧ detect_format fragDefaultInPerson = detect_format fragExplicitInPerson :=
  ⟨rfl, rfl, rfl, rfl, rfl, rfl, rfl⟩

/-- C6 amended: for a fragment matching no format keyword the result
is "in-person" exactly when a location-like sub-element exists and
"online" otherwise; the result is a bare format string with no
inferred/stated marker. -/
theorem detect_format_default_amended (frag : Fragment)
    (h1 : keywordMatch hybridKeywords frag = false)
    (h2 : keywordMatch onlineKeywords frag = false)
    (h3 : keywordMatch inPersonKeywords frag = false) :
    detect_format frag = if frag.locationEl.isSome then "in-person" else "online" := by
  simp [detect_format, h1, h2, h3]

/-- Witness for the amended C6 at a concrete keyword-free fragment with
a location element. -/
theorem detect_format_default_amended_witness :
    detect_format fragDefaultInPerson = "in-person" := by
  have h := detect_format_default_amended fragDefaultInPerson rfl rfl rfl
  rw [h]
  rfl

/-- C8: a location element's stripped text becomes the venue; city and
country (first and last comma-separated part) are assigned exactly
when at least two parts exist; and a zoom/meet link's target is
recorded as the online URL independently of the venue. -/
theorem extract_location_spec (frag : Fragment) :
    (∀ el, frag.locationEl = some el →
        (extract_location frag).venue = some (trimS el.text)
        ∧ (2 ≤ (locationParts el).length →
            (extract_location frag).city = some ((locationParts el).headD "")
            ∧ (extract_location frag).country = some ((locationParts el).getLastD ""))
        ∧ ((locationParts el).length < 2 →
            (extract_location frag).city = none ∧ (extract_location frag).country = none))
    ∧ (∀ href, frag.zoomLink = some href →
        (extract_location frag).online_url = some href) := by
  constructor
  · intro el hel
    cases hp : locationParts el with
    | nil =>
        cases hz : frag.zoomLink <;> simp_all [extract_location]
    | cons p0 rest =>
        cases rest with
        | nil =>
            cases hz : frag.zoomLink <;> simp_all [extract_location]
        | cons p1 rest2 =>
            cases hz : frag.zoomLink <;> simp_all [extract_location]
  · intro href hz
    cases hel : frag.locationEl <;> simp [extract_location, hel, hz]

/-- Witness for C8 at a concrete fragment with venue
"Institute Hall, London, UK" and a zoom link. -/
theorem extract_location_spec_witness :
    (extract_location fragLocation).venue = some "Institute Hall, London, UK"
    ∧ (extract_location fragLocation).city = some "Institute Hall"
    ∧ (extract_location fragLocation).country = some "UK"
    ∧ (extract_location fragLocation).online_url = some "https://zoom.us/j/123" := by
  have h := (extract_location_spec fragLocation).1 { text := "Institute Hall, London, UK" } rfl
  have hz := (extract_location_spec fragLocation).2 "https://zoom.us/j/123" rfl
  refine ⟨h.1.trans (by decide), ?_, ?_, hz⟩
  · exact ((h.2.1 (by decide)).1).trans (by decide)
  · exact ((h.2.1 (by decide)).2).trans (by decide)

lemma sum_filter_mono (h1 h2 : ScoredField → Bool)
    (hmono : ∀ f, h1 f = true → h2 f = true) :
    ∀ l : List (ScoredField × Nat),
      ((l.filter fun fw => h1 fw.1).map Prod.snd).sum
        ≤ ((l.filter fun fw => h2 fw.1).map Prod.snd).sum := by
  intro l
  induction l with
  | nil => simp
  | cons hd tl ih =>
      by_cases hb : h1 hd.1 = true
      · have hb2 := hmono hd.1 hb
        simp only [List.filter_cons, hb, hb2, if_true, List.map_cons, List.sum_cons]
        omega
      · by_cases hb2 : h2 hd.1 = true
        · simp only [List.filter_cons, hb, hb2, if_true, Bool.false_eq_true, if_false,
            List.map_cons, List.sum_cons]
          omega
        · simp only [List.filter_cons, hb, hb2, Bool.false_eq_true, if_false]
          exact ih

lemma eventScore_eq_sum (e : MEvent) :
    eventScore e = ((weights.filter fun fw => hasField e fw.1).map Prod.snd).sum := by
  unfold eventScore calculate_completeness
  rw [completeness_foldl]
  simp

lemma merge_preserves_presence (e1 e2 : MEvent) (f : ScoredField)
    (h : hasField e2 f = true) : hasField (merge_duplicates e1 e2) f = true := by
  unfold hasField merge_duplicates at *
  cases h1 : e1.fields f <;> cases h2 : e2.fields f <;> simp_all
  split <;> simp

/-- C5: merging a score-40 event A with a score-80 event B of the same
fingerprint yields a record of score at least 80; every field present
in B stays present, a field absent in A never overwrites B's value;
and each merged field value comes verbatim from one of the two
members — nothing is averaged or concatenated.  (The merge rule is
modelled from the spec: the source's `EventMerger` is an empty stub.) -/
theorem merge_monotonic (A B : MEvent)
    (hA : eventScore A = 40) (hB : eventScore B = 80)
    (hfp : fingerprint A = fingerprint B) :
    80 ≤ eventScore (merge_duplicates A B)
    ∧ (∀ f, B.fields f ≠ none → ((merge_duplicates A B).fields f).isSome = true)
    ∧ (∀ f v, B.fields f = some v → A.fields f = none →
        (merge_duplicates A B).fields f = some v)
    ∧ (∀ f, (merge_duplicates A B).fields f = A.fields f
          ∨ (merge_duplicates A B).fields f = B.fields f) := by
  refine ⟨?_, ?_, ?_, ?_⟩
  · have hmono : ∀ f, hasField B f = true → hasField (merge_duplicates A B) f = true :=
      fun f h => merge_preserves_presence A B f h
    have hle := sum_filter_mono (hasField B) (hasField (merge_duplicates A B)) hmono weights
    rw [eventScore_eq_sum] at hB ⊢
    omega
  · intro f hp
    have : hasField B f = true := by
      unfold hasField
      cases hb : B.fields f
      · exact absurd hb hp
      · rfl
    exact merge_preserves_presence A B f this
  · intro f v hb ha
    simp [merge_duplicates, ha, hb]
  · intro f
    cases h1 : A.fields f <;> cases h2 : B.fields f
    · simp [merge_duplicates, h1, h2]
    · simp [merge_duplicates, h1, h2]
    · simp [merge_duplicates, h1, h2]
    · by_cases hlt : A.scrapedAt < B.scrapedAt
      · right; simp [merge_duplicates, h1, h2, hlt]
      · left; simp [merge_duplicates, h1, h2, hlt]

/-- Witness for C5 at two concrete events with equal fingerprints and
scores 40 and 80: the merged record scores at least 80. -/
theorem merge_monotonic_witness :
    eventScore eventA40 = 40 ∧ eventScore eventB80 = 80
    ∧ 80 ≤ eventScore (merge_duplicates eventA40 eventB80) := by
  have h := merge_monotonic eventA40 eventB80 (by decide) (by decide) (by decide)
  exact ⟨by decide, by decide, h.1⟩

lemma mem_insertSorted (le : FEvent → FEvent → Bool) (x a : FEvent) :
    ∀ l : List FEvent, a ∈ insertSorted le x l → a = x ∨ a ∈ l := by
  intro l
  induction l with
  | nil => intro h; simp [insertSorted] at h; exact Or.inl h
  | cons b bs ih =>
      intro h
      unfold insertSorted at h
      by_cases hle : le x b = true
      · rw [if_pos hle] at h
        rcases List.mem_cons.mp h with h1 | h1
        · exact Or.inl h1
        · exact Or.inr h1
      · rw [if_neg hle] at h
        rcases List.mem_cons.mp h with h1 | h1
        · exact Or.inr (List.mem_cons.mpr (Or.inl h1))
        · rcases ih h1 with h2 | h2
          · exact Or.inl h2
          · exact Or.inr (List.mem_cons.mpr (Or.inr h2))

lemma mem_sortList (le : FEvent → FEvent → Bool) (a : FEvent) :
    ∀ l : List FEvent, a ∈ sortList le l → a ∈ l := by
  intro l
  induction l with
  | nil => intro h; simp [sortList] at h
  | cons b bs ih =>
      intro h
      unfold sortList at h
      rcases mem_insertSorted le b a (sortList le bs) h with h1 | h1
      · exact List.mem_cons.mpr (Or.inl h1)
      · exact List.mem_cons.mpr (Or.inr (ih h1))

lemma mem_applyEndDate (jsDate : String → Option Int) (filters : Filters)
    (l : List FEvent) (e : FEvent) (h : e ∈ applyEndDate jsDate filters l) : e ∈ l := by
  unfold applyEndDate at h
  split at h
  · exact (List.mem_filter.mp h).1
  · exact h

lemma applyStartDate_date (jsDate : String → Option Int) (filters : Filters)
    (l : List FEvent) (e : FEvent) (hne : filters.startDate ≠ "")
    (h : e ∈ applyStartDate jsDate filters l) : truthyOpt e.start_date = true := by
  unfold applyStartDate at h
  rw [if_pos hne] at h
  exact (Bool.and_eq_true _ _ |>.mp (List.mem_filter.mp h).2).1

lemma applyEndDate_date (jsDate : String → Option Int) (filters : Filters)
    (l : List FEvent) (e : FEvent) (hne : filters.endDate ≠ "")
    (h : e ∈ applyEndDate jsDate filters l) : truthyOpt e.start_date = true := by
  unfold applyEndDate at h
  rw [if_pos hne] at h
  exact (Bool.and_eq_true _ _ |>.mp (List.mem_filter.mp h).2).1

/-- C9: whenever a non-empty startDate or endDate filter is set, every
event in `filteredEvents` has a truthy (non-null, non-empty)
start_date — events without one are excluded regardless of the other
filters, the sort, or how dates parse. -/
theorem filtered_events_require_date (jsDate : String → Option Int)
    (events : List FEvent) (filters : Filters) (sortKey : String) (e : FEvent)
    (hdates : filters.startDate ≠ "" ∨ filters.endDate ≠ "")
    (hmem : e ∈ filteredEvents jsDate events filters sortKey) :
    truthyOpt e.start_date = true := by
  unfold filteredEvents at hmem
  have h1 := mem_sortList _ e _ hmem
  rcases hdates with hs | he
  · exact applyStartDate_date jsDate filters _ e hs (mem_applyEndDate jsDate filters _ e h1)
  · exact applyEndDate_date jsDate filters _ e he h1

/-- Witness for C9: with a concrete start-date filter, a concrete
dated event that survives the pipeline indeed has a truthy date (and
the undated event is excluded from the concrete result). -/
theorem filtered_events_require_date_witness :
    truthyOpt eventWithDate.start_date = true :=
  filtered_events_require_date jsDateIso [eventNoDate, eventWithDate] filtersWithStart
    "date" eventWithDate (Or.inl (by decide)) (by decide)

lemma getProp_ok_metadata (data ev : JVal) (h : getProp data "events" = .ok ev) :
    ∃ md, getProp data "metadata" = .ok md := by
  cases data with
  | jnull => simp [getProp] at h
  | jundefined => simp [getProp] at h
  | jobj fields => exact ⟨lookupField fields "metadata", rfl⟩
  | jbool b => exact ⟨.jundefined, rfl⟩
  | jnum n => exact ⟨.jundefined, rfl⟩
  | jstr s => exact ⟨.jundefined, rfl⟩
  | jarr l => exact ⟨.jundefined, rfl⟩

/-- C10 counterexample: the claim says events is always bound to an
array; for the JSON payload `{"events": 42}` the hook binds `events`
to the number 42 (the code checks only truthiness of `data.events`,
not that it is an array), with no error recorded. -/
theorem useEvents_nonarray_counterexample :
    isArrayJ (useEvents (.resp true 200 (.json (.jobj [("events", .jnum 42)])))).events
        = false
    ∧ (useEvents (.resp true 200 (.json (.jobj [("events", .jnum 42)])))).events
        = .jnum 42
    ∧ (useEvents (.resp true 200 (.json (.jobj [("events", .jnum 42)])))).error = none :=
  ⟨rfl, rfl, rfl⟩

/-- C10 amended: every outcome ends with loading false and events
rebound; network errors, non-OK statuses and JSON parse errors yield
empty events with the failure message; an array payload is bound as
is; a null payload throws on the `events` property access and follows
the error path; an object payload with a truthy `events` value binds
that value (an array only when it is one) with no error; any other
payload yields empty events with no error. -/
theorem useEvents_behavior :
    (∀ o, (useEvents o).loading = false)
    ∧ (∀ msg, useEvents (.netError msg)
        = { events := .jarr [], loading := false, error := some msg,
            lastUpdated := .jnull })
    ∧ (∀ status body, useEvents (.resp false status body)
        = { events := .jarr [], loading := false,
            error := some ("Failed to fetch events: " ++ toString status),
            lastUpdated := .jnull })
    ∧ (∀ status msg, useEvents (.resp true status (.jsonError msg))
        = { events := .jarr [], loading := false, error := some msg,
            lastUpdated := .jnull })
    ∧ (∀ status l, useEvents (.resp true status (.json (.jarr l)))
        = { events := .jarr l, loading := false, error := none,
            lastUpdated := .jnull })
    ∧ (∀ status, useEvents (.resp true status (.json .jnull))
        = { events := .jarr [], loading := false,
            error := some "TypeError: Cannot read properties of null (reading 'events')",
            lastUpdated := .jnull })
    ∧ (∀ status data ev, isArrayJ data = false → getProp data "events" = .ok ev →
        truthy ev = false →
        useEvents (.resp true status (.json data))
          = { events := .jarr [], loading := false, error := none,
              lastUpdated := .jnull })
    ∧ (∀ status data ev, isArrayJ data = false → getProp data "events" = .ok ev →
        truthy ev = true →
        (useEvents (.resp true status (.json data))).events = ev
        ∧ (useEvents (.resp true status (.json data))).error = none
        ∧ (useEvents (.resp true status (.json data))).loading = false) := by
  refine ⟨?_, ?_, ?_, ?_, ?_, ?_, ?_, ?_⟩
  · intro o
    unfold useEvents
    cases runFetch o with
    | ok p => rfl
    | error msg => rfl
  · intro msg; rfl
  · intro status body; rfl
  · intro status msg; rfl
  · intro status l; rfl
  · intro status; rfl
  · intro status data ev hna hget htr
    simp [useEvents, runFetch, hna, hget, htr]
  · intro status data ev hna hget htr
    obtain ⟨md, hmd⟩ := getProp_ok_metadata data ev hget
    refine ⟨?_, ?_, ?_⟩ <;> simp [useEvents, runFetch, hna, hget, htr, hmd]

/-- Witness for the amended C10 at the concrete payload `"oops"` (a
string: neither an array nor an object with an events key): empty
events and no error. -/
theorem useEvents_behavior_witness :
    useEvents (.resp true 200 (.json (.jstr "oops")))
      = { events := .jarr [], loading := false, error := none, lastUpdated := .jnull } :=
  useEvents_behavior.2.2.2.2.2.2.1 200 (.jstr "oops") .jundefined rfl rfl rfl

end Agg
